import Mathlib

/-!
Verification of the journal repository's core subsystems against its
specification: the on-disk header codec (`src/types.rs`), the AEAD
encryption wrapper and key normalization (`src/crypto.rs`), the journal
open/edit/write cycle (`src/types.rs`), the temporary-file based editor
hand-off (`src/fs/editor.rs`), and the incremental export/manifest logic
(`src/export/aws.rs`, `src/export/zip.rs`).

Bytes are modelled as `Nat` (values below 256 where it matters); Rust
`Vec<u8>` becomes `List Nat`; fallible functions return `Except` or a
dedicated result type; a Rust panic (out-of-bounds slice index) is made
explicit as a distinct result constructor.
-/

namespace JournalSpec

/-- Mirror of `Header` in `src/types.rs`: version byte, encrypted flag,
nonce and tag bytes, and the derived `size` (number of leading bytes to
strip before the payload). -/
structure Header where
  size : Nat
  version : Nat
  encrypted : Bool
  nonce : List Nat
  tag : List Nat
deriving DecidableEq, Repr

/-- Model of `Header::v0()` in `src/types.rs`: the legacy header (no bytes consumed). -/
def Header.v0 : Header :=
  { size := 0, version := 0x00, encrypted := false, nonce := [], tag := [] }

/-- Model of `Header::new_non_encrypted()` in `src/types.rs`. -/
def Header.new_non_encrypted : Header :=
  { size := 2, version := 0x01, encrypted := false, nonce := [], tag := [] }

/-- Model of `Header::new_encrypted(nonce, tag)` in `src/types.rs`. -/
def Header.new_encrypted (nonce tag : List Nat) : Header :=
  { size := 4 + nonce.length + tag.length, version := 0x01, encrypted := true,
    nonce := nonce, tag := tag }

/-- Model of `Header::encode` in `src/types.rs`: the byte buffer handed to the writer.
`nonce.len() as u8` and `tag.len() as u8` are `% 256` truncations. -/
def Header.encode (h : Header) : List Nat :=
  let flags : Nat := if h.encrypted then 0x80 else 0x00
  if h.encrypted then
    h.version :: flags :: (h.nonce.length % 256) :: (h.tag.length % 256)
      :: (h.nonce ++ h.tag)
  else
    [h.version, flags]

/-- Outcome of `Header::decode` in `src/types.rs`. The Rust function
returns `Result<Header>`; additionally the unchecked slice expressions
`&value[size..size+nonce_size]` and `&value[size..size+tag_size]` panic
when the buffer is too short, which we record as `.panic`. -/
inductive DecodeResult where
  | ok : Header → DecodeResult
  | error : String → DecodeResult
  | panic : DecodeResult
deriving DecidableEq, Repr

/-- Model of `Header::decode` in `src/types.rs`, byte for byte:
missing or non-`0x01` version byte (or missing flags byte) yields the
legacy header; with the encrypted bit set, the nonce/tag length bytes are
read with `get` (an error when absent) but the nonce/tag bytes themselves
are taken by slice indexing, which panics on a short buffer. -/
def Header.decode (value : List Nat) : DecodeResult :=
  match value.head? with
  | none => .ok Header.v0
  | some version =>
    if version ≠ 0x01 then .ok Header.v0
    else
      match value[1]? with
      | none => .ok Header.v0
      | some flags =>
        if flags &&& 0x80 = 0x80 then
          match value[2]? with
          | none => .error "failed to decode header: missing nonce size"
          | some nonce_size =>
            match value[3]? with
            | none => .error "failed to decode header: missing tag size"
            | some tag_size =>
              if 4 + nonce_size > value.length then .panic
              else if 4 + nonce_size + tag_size > value.length then .panic
              else
                .ok { size := 4 + nonce_size + tag_size,
                      version := version,
                      encrypted := true,
                      nonce := (value.drop 4).take nonce_size,
                      tag := (value.drop (4 + nonce_size)).take tag_size }
        else
          .ok { size := 2, version := version, encrypted := false,
                nonce := [], tag := [] }

/-- Model of `encode ∘ decode` on a raw buffer: `some` of the re-encoded bytes when
decoding succeeded, `none` on error or panic. -/
def reencode (value : List Nat) : Option (List Nat) :=
  match Header.decode value with
  | .ok h => some (Header.encode h)
  | _ => none

/-- Shared shape of the encrypted-header body: a nonce-length byte, a
tag-length byte, and exactly that many following bytes. -/
def encBody : List Nat → Bool
  | n :: t :: body =>
    decide (n < 256) && decide (t < 256) && body.length == n + t &&
      body.all (· < 256)
  | _ => false

/-- The well-formedness notion written in the claim's own words (spec
wording, for comparison against the code): version `0x01`, an arbitrary
flags byte, and — when the encrypted bit is set — `nonce_len` and
`tag_len` bytes followed by exactly that many nonce and tag bytes. -/
def claimWellFormed (v : List Nat) : Bool :=
  match v with
  | ver :: flags :: rest =>
    ver == 1 && decide (flags < 256) &&
      (if flags &&& 0x80 = 0x80 then encBody rest else rest == [])
  | _ => false

/-- The amended well-formedness: as `claimWellFormed` but the flags byte
carries no bits other than bit 7, i.e. it is exactly `0x00` or `0x80`. -/
def amendedWellFormed (v : List Nat) : Bool :=
  match v with
  | ver :: flags :: rest =>
    ver == 1 &&
      ((flags == 0x00 && rest == []) || (flags == 0x80 && encBody rest))
  | _ => false

/-- Helper: decoding an encrypted-bit buffer with intact length bytes and a
body holding exactly the declared number of nonce and tag bytes. -/
theorem Header.decode_encrypted (n t : Nat) (body : List Nat)
    (hlen : n + t ≤ body.length) :
    Header.decode (1 :: 128 :: n :: t :: body) =
      .ok (Header.mk (4 + n + t) 1 true (body.take n)
        ((body.drop n).take t)) := by
  have hvl : (1 :: 128 :: n :: t :: body : List Nat).length
      = 4 + body.length := by
    simp only [List.length_cons]
    omega
  rw [Header.decode]
  simp only [List.head?_cons, List.getElem?_cons_zero, List.getElem?_cons_succ]
  rw [hvl, if_neg (by decide), if_pos (by decide), if_neg (by omega),
    if_neg (by omega)]
  have hdrop4 : (1 :: 128 :: n :: t :: body : List Nat).drop 4 = body := rfl
  have hdropn : (1 :: 128 :: n :: t :: body : List Nat).drop (4 + n)
      = body.drop n := by
    conv_rhs => rw [← hdrop4]
    rw [List.drop_drop]
  rw [hdrop4, hdropn]

/-- Helper: `Header::encode` output for an encrypted header whose nonce and
tag lengths fit in one byte. -/
theorem Header.encode_encrypted (nonce tag : List Nat) (sz : Nat)
    (hn : nonce.length < 256) (ht : tag.length < 256) :
    Header.encode (Header.mk sz 1 true nonce tag) =
      1 :: 128 :: nonce.length :: tag.length :: (nonce ++ tag) := by
  rw [Header.encode]
  simp [Nat.mod_eq_of_lt hn, Nat.mod_eq_of_lt ht]

/-- C2: for version `0x01` with the encrypted flag bit set, a buffer of
two or three bytes (missing length bytes) yields a decode error, but a
buffer that is merely shorter than `4 + nonce_len + tag_len` — here
`[0x01, 0x80, 0x0C, 0x10]`, declaring a 12-byte nonce and 16-byte tag —
makes `Header::decode` panic on an out-of-range slice index instead of
returning the `MalformedHeader` error the claim requires. -/
theorem header_decode_truncated_panics :
    Header.decode [0x01, 0x80, 0x0C, 0x10] = .panic ∧
    Header.decode [0x01, 0x80] =
      .error "failed to decode header: missing nonce size" ∧
    Header.decode [0x01, 0x80, 0x0C] =
      .error "failed to decode header: missing tag size" := by
  refine ⟨by decide, rfl, rfl⟩

/-- C8 counterexample: `[0x01, 0x01]` is a well-formed encoded header in
the claim's sense (version `0x01` followed by a flags byte), yet
`encode (decode [0x01, 0x01])` yields `[0x01, 0x00]`, not the original
bytes: `encode` canonicalizes the flags byte. -/
theorem header_roundtrip_claim_counterexample :
    claimWellFormed [0x01, 0x01] = true ∧ reencode [0x01, 0x01] ≠ some [0x01, 0x01] := by
  decide

/-- C8 (amended): for every well-formed encoded header whose flags byte is
exactly `0x00` or `0x80`, `Header::encode` applied to the result of
`Header::decode` reproduces the original bytes. -/
theorem header_roundtrip_amended (v : List Nat)
    (h : amendedWellFormed v = true) : reencode v = some v := by
  rcases v with _ | ⟨ver, _ | ⟨flags, rest⟩⟩
  · simp [amendedWellFormed] at h
  · simp [amendedWellFormed] at h
  · rw [amendedWellFormed] at h
    simp only [Bool.and_eq_true, Bool.or_eq_true, beq_iff_eq] at h
    obtain ⟨rfl, h⟩ := h
    rcases h with ⟨rfl, hrest⟩ | ⟨rfl, h⟩
    · rw [show rest = [] from hrest]
      decide
    · rcases rest with _ | ⟨n, _ | ⟨t, body⟩⟩
      · simp [encBody] at h
      · simp [encBody] at h
      · rw [encBody] at h
        simp only [Bool.and_eq_true, beq_iff_eq, decide_eq_true_eq] at h
        obtain ⟨⟨⟨hn, ht⟩, hlen⟩, _⟩ := h
        have h1 : (body.take n).length = n := by
          rw [List.length_take, hlen]
          omega
        have h2 : (body.drop n).length = t := by
          rw [List.length_drop, hlen]
          omega
        have h3 : (body.drop n).take t = body.drop n :=
          List.take_of_length_le (by omega)
        simp only [reencode, Header.decode_encrypted n t body (by omega), h3]
        rw [Header.encode_encrypted _ _ _ (by omega) (by omega)]
        rw [h1, h2, List.take_append_drop]

/-- Witness for the amended C8 round-trip at the concrete header
`[0x01, 0x80, 0x01, 0x02, 0x09, 0x07, 0x07]` (one nonce byte, two tag bytes). -/
theorem header_roundtrip_amended_witness :
    amendedWellFormed [1, 128, 1, 2, 9, 7, 7] = true ∧
    reencode [1, 128, 1, 2, 9, 7, 7] = some [1, 128, 1, 2, 9, 7, 7] :=
  ⟨by decide, header_roundtrip_amended [1, 128, 1, 2, 9, 7, 7] (by decide)⟩

/-! ## AEAD cipher model (`src/crypto.rs`)

The AES-256-GCM primitive itself lives in the external `ring` crate, not
in this repository. GCM is counter-mode encryption (ciphertext = plaintext
XOR keystream) plus a 16-byte tag computed deterministically from key,
nonce and ciphertext; `open` recomputes the tag over the last-16-byte
split of `data ++ tag` and compares. The repository's code is therefore
verified for an arbitrary deterministic keystream function `ks` and tag
byte function `tagB`, which the theorems quantify over. -/

/-- Failures raised by `src/crypto.rs` and `src/types.rs`. The three
`get_key` normalization failures form the spec's `KeyInvalid` class. -/
inductive CryptoError where
  /-- Model of `get_key`: "empty key" -/
  | emptyKey
  /-- Model of `get_key`: "key must not be shorter than 8 characters" -/
  | keyTooShort
  /-- Model of `get_key`: "key must not be longer than 32 characters" -/
  | keyTooLong
  /-- Model of `Nonce::try_assume_unique_for_key` rejects a non-96-bit nonce -/
  | badNonce
  /-- Model of `open_in_place` authentication failure -/
  | openFailed
  /-- Model of `Journal::require_key`: "key required for encrypted file" -/
  | missingKey
deriving DecidableEq, Repr

/-- Which errors belong to the spec's `KeyInvalid` class. -/
def CryptoError.isKeyInvalid : CryptoError → Bool
  | .emptyKey | .keyTooShort | .keyTooLong => true
  | _ => false

/-- Model of `get_key` in `src/crypto.rs`: reject byte lengths outside `[8, 32]`
(zero length has its own message), then pad with trailing zero bytes to
exactly `KEY_LEN = 32` bytes. -/
def get_key (key_str : List Nat) : Except CryptoError (List Nat) :=
  if key_str.length = 0 then .error .emptyKey
  else if key_str.length < 8 then .error .keyTooShort
  else if key_str.length > 32 then .error .keyTooLong
  else .ok (key_str ++ List.replicate (32 - key_str.length) 0)

/-- The GCM keystream bytes for a given key and nonce, one byte per index,
generated from the abstract keystream function `ks`. -/
def keystreamList (ks : List Nat → List Nat → Nat → Nat)
    (k nonce : List Nat) (len : Nat) : List Nat :=
  (List.range len).map fun i => ks k nonce i % 256

/-- Counter-mode sealing/opening: XOR the data with the keystream.
XOR is an involution, so the same function encrypts and decrypts. -/
def sealBytes (ks : List Nat → List Nat → Nat → Nat)
    (k nonce data : List Nat) : List Nat :=
  List.zipWith Nat.xor data (keystreamList ks k nonce data.length)

/-- The 16-byte GCM authentication tag (AES-256-GCM's tag length),
generated from the abstract tag byte function `tagB`. -/
def gcmTag (tagB : List Nat → List Nat → List Nat → Nat → Nat)
    (k nonce ct : List Nat) : List Nat :=
  (List.range 16).map fun i => tagB k nonce ct i % 256

/-- The nonce generated by `encrypt`: `vec![0; NONCE_LEN]` (`NONCE_LEN =
12` in `ring`) filled by `SystemRandom`, modelled by the byte source
`rand`. Its length is 12 for every `rand`. -/
def freshNonce (rand : Nat → Nat) : List Nat :=
  (List.range 12).map fun i => rand i % 256

/-- Model of `EncryptionResult` in `src/crypto.rs`. -/
structure EncryptionResult where
  ciphertext : List Nat
  nonce : List Nat
  tag : List Nat
deriving DecidableEq, Repr

/-- Model of `encrypt` in `src/crypto.rs`: normalize the key, generate a fresh
12-byte nonce, seal the data and return ciphertext, nonce and tag. -/
def encrypt (ks : List Nat → List Nat → Nat → Nat)
    (tagB : List Nat → List Nat → List Nat → Nat → Nat)
    (rand : Nat → Nat) (data key : List Nat) :
    Except CryptoError EncryptionResult :=
  match get_key key with
  | .error e => .error e
  | .ok k =>
    let nonce := freshNonce rand
    let ciphertext := sealBytes ks k nonce data
    .ok ⟨ciphertext, nonce, gcmTag tagB k nonce ciphertext⟩

/-- Model of `decrypt` in `src/crypto.rs`: normalize the key identically, then
`open_in_place` on `[data, tag].concat()`: the last 16 bytes are the
purported tag, recomputed over the rest and compared; only on a match is
the opened plaintext returned. -/
def decrypt (ks : List Nat → List Nat → Nat → Nat)
    (tagB : List Nat → List Nat → List Nat → Nat → Nat)
    (key nonce tag data : List Nat) : Except CryptoError (List Nat) :=
  match get_key key with
  | .error e => .error e
  | .ok k =>
    if nonce.length ≠ 12 then .error .badNonce
    else
      let combined := data ++ tag
      if combined.length < 16 then .error .openFailed
      else
        let ct := combined.take (combined.length - 16)
        let t := combined.drop (combined.length - 16)
        if t = gcmTag tagB k nonce ct then .ok (sealBytes ks k nonce ct)
        else .error .openFailed

theorem keystreamList_length (ks : List Nat → List Nat → Nat → Nat)
    (k nonce : List Nat) (len : Nat) :
    (keystreamList ks k nonce len).length = len := by
  simp [keystreamList]

theorem sealBytes_length (ks : List Nat → List Nat → Nat → Nat)
    (k nonce data : List Nat) :
    (sealBytes ks k nonce data).length = data.length := by
  simp [sealBytes, keystreamList]

theorem natXorCancel (a b : Nat) : Nat.xor (Nat.xor a b) b = a :=
  Nat.xor_cancel_right b a

theorem zipWith_xor_cancel (l m : List Nat) (h : l.length ≤ m.length) :
    List.zipWith Nat.xor (List.zipWith Nat.xor l m) m = l := by
  induction l generalizing m with
  | nil => simp
  | cons a l ih =>
    cases m with
    | nil => simp at h
    | cons b m =>
      simp only [List.zipWith_cons_cons, natXorCancel, List.cons.injEq,
        eq_self_iff_true, true_and]
      exact ih m (by simpa using h)

/-- Opening a sealed buffer with the same key and nonce restores the data. -/
theorem sealBytes_sealBytes (ks : List Nat → List Nat → Nat → Nat)
    (k nonce data : List Nat) :
    sealBytes ks k nonce (sealBytes ks k nonce data) = data := by
  unfold sealBytes
  rw [List.length_zipWith, keystreamList_length, Nat.min_self]
  exact zipWith_xor_cancel data _ (by rw [keystreamList_length])

theorem get_key_valid (key : List Nat) (h8 : 8 ≤ key.length)
    (h32 : key.length ≤ 32) :
    get_key key = .ok (key ++ List.replicate (32 - key.length) 0) := by
  unfold get_key
  rw [if_neg (by omega), if_neg (by omega), if_neg (by omega)]

/-- C1: for every plaintext `data` and key of byte length in `[8, 32]`,
`encrypt` succeeds and `decrypt` applied to the returned
`EncryptionResult`'s nonce, tag and ciphertext returns exactly the
plaintext — for every deterministic keystream/tag primitive and every
nonce randomness source. -/
theorem encrypt_then_decrypt (ks : List Nat → List Nat → Nat → Nat)
    (tagB : List Nat → List Nat → List Nat → Nat → Nat) (rand : Nat → Nat)
    (data key : List Nat) (h8 : 8 ≤ key.length) (h32 : key.length ≤ 32) :
    ∃ r : EncryptionResult,
      encrypt ks tagB rand data key = .ok r ∧
      decrypt ks tagB key r.nonce r.tag r.ciphertext = .ok data := by
  have hk := get_key_valid key h8 h32
  set k := key ++ List.replicate (32 - key.length) 0 with hkdef
  set nonce := freshNonce rand with hnonce
  set ct := sealBytes ks k nonce data with hct
  set tg := gcmTag tagB k nonce ct with htg
  refine ⟨⟨ct, nonce, tg⟩, ?_, ?_⟩
  · simp only [encrypt, hk]
  · simp only [decrypt, hk]
    have hn12 : nonce.length = 12 := by simp [hnonce, freshNonce]
    have htg16 : tg.length = 16 := by simp [htg, gcmTag]
    have hcomb : (ct ++ tg).length = ct.length + 16 := by
      simp [htg16]
    rw [if_neg (by omega)]
    rw [if_neg (by omega)]
    have hsplit : (ct ++ tg).length - 16 = ct.length := by omega
    rw [hsplit]
    have htake : (ct ++ tg).take ct.length = ct := List.take_left ct tg
    have hdrop : (ct ++ tg).drop ct.length = tg := List.drop_left ct tg
    rw [htake, hdrop, if_pos rfl, hct, sealBytes_sealBytes]

/-- Witness for C1 at the concrete plaintext `[1, 2, 3]`, the 8-byte key
`aaaaaaaa` and concrete keystream/tag/randomness functions. -/
theorem encrypt_then_decrypt_witness :
    ∃ r : EncryptionResult,
      encrypt (fun _ _ i => i + 1) (fun _ _ _ i => i) (fun i => i)
          [1, 2, 3] (List.replicate 8 97) = .ok r ∧
      decrypt (fun _ _ i => i + 1) (fun _ _ _ i => i)
          (List.replicate 8 97) r.nonce r.tag r.ciphertext = .ok [1, 2, 3] :=
  encrypt_then_decrypt (fun _ _ i => i + 1) (fun _ _ _ i => i) (fun i => i)
    [1, 2, 3] (List.replicate 8 97) (by decide) (by decide)

/-- C9: `encrypt` and `decrypt` fail with an error of the `KeyInvalid`
class exactly when the key's byte length is below 8 or above 32; with a
key in range, any remaining failure of `decrypt` is a nonce or
authentication failure, never `KeyInvalid`. -/
theorem keyInvalid_iff_length (ks : List Nat → List Nat → Nat → Nat)
    (tagB : List Nat → List Nat → List Nat → Nat → Nat) (rand : Nat → Nat)
    (data key nonce tag ct : List Nat) :
    ((∃ e, encrypt ks tagB rand data key = .error e ∧
        e.isKeyInvalid = true) ↔ (key.length < 8 ∨ key.length > 32)) ∧
    ((∃ e, decrypt ks tagB key nonce tag ct = .error e ∧
        e.isKeyInvalid = true) ↔ (key.length < 8 ∨ key.length > 32)) := by
  by_cases hv : 8 ≤ key.length ∧ key.length ≤ 32
  · obtain ⟨h8, h32⟩ := hv
    have hk := get_key_valid key h8 h32
    constructor
    · constructor
      · rintro ⟨e, he, -⟩
        simp only [encrypt, hk] at he
        cases he
      · intro hcontra
        omega
    · constructor
      · rintro ⟨e, he, hki⟩
        simp only [decrypt, hk] at he
        split_ifs at he <;> (try cases he) <;> exact absurd hki (by decide)
      · intro hcontra
        omega
  · have hrange : key.length < 8 ∨ key.length > 32 := by omega
    have hk : ∃ e, get_key key = .error e ∧ e.isKeyInvalid = true := by
      unfold get_key
      by_cases h0 : key.length = 0
      · rw [if_pos h0]
        exact ⟨.emptyKey, rfl, rfl⟩
      · by_cases hs : key.length < 8
        · rw [if_neg h0, if_pos hs]
          exact ⟨.keyTooShort, rfl, rfl⟩
        · rw [if_neg h0, if_neg hs, if_pos (by omega)]
          exact ⟨.keyTooLong, rfl, rfl⟩
    obtain ⟨e, he, hki⟩ := hk
    constructor
    · exact ⟨fun _ => hrange, fun _ => ⟨e, by simp [encrypt, he], hki⟩⟩
    · exact ⟨fun _ => hrange, fun _ => ⟨e, by simp [decrypt, he], hki⟩⟩

/-! ## Journal open/edit/write (`src/types.rs`) -/

/-- Model of `Journal::write` in `src/types.rs`: with a key, encrypt the content
and emit an encrypted header (carrying the fresh nonce and tag) followed
by the ciphertext; without a key, emit the plain version-1 header followed
by the content. The result is the byte sequence written to the file. -/
def Journal.write (ks : List Nat → List Nat → Nat → Nat)
    (tagB : List Nat → List Nat → List Nat → Nat → Nat) (rand : Nat → Nat)
    (key : Option (List Nat)) (content : List Nat) :
    Except CryptoError (List Nat) :=
  match key with
  | some k =>
    match encrypt ks tagB rand content k with
    | .error e => .error e
    | .ok r =>
      .ok (Header.encode (Header.new_encrypted r.nonce r.tag) ++ r.ciphertext)
  | none => .ok (Header.encode Header.new_non_encrypted ++ content)

/-- Model of `Journal::bytes` (with `Journal::decrypt` and `require_key`) in
`src/types.rs`: for an encrypted header a key is required and the payload
past `header.size` is decrypted; otherwise the payload is returned as is. -/
def Journal.bytes (ks : List Nat → List Nat → Nat → Nat)
    (tagB : List Nat → List Nat → List Nat → Nat → Nat)
    (key : Option (List Nat)) (header : Header) (contents : List Nat) :
    Except CryptoError (List Nat) :=
  if header.encrypted then
    match key with
    | none => .error .missingKey
    | some k => decrypt ks tagB k header.nonce header.tag
        (contents.drop header.size)
  else .ok (contents.drop header.size)

/-- Outcome of `Journal::edit` on a journal whose raw file bytes are
given: the new on-disk bytes on success, the propagated failure otherwise
(decode failures and decode panics kept separate). The external editor is
the function `editor`. -/
inductive EditResult where
  | written : List Nat → EditResult
  | failed : CryptoError → EditResult
  | decodeFailed : EditResult
  | panicked : EditResult
deriving DecidableEq, Repr

/-- Model of `Journal::open` followed by `Journal::edit` in `src/types.rs`: decode
the header from the raw bytes, obtain the plaintext via `bytes`, hand it
to the editor, and rewrite the whole file via `write`. -/
def Journal.edit (ks : List Nat → List Nat → Nat → Nat)
    (tagB : List Nat → List Nat → List Nat → Nat → Nat) (rand : Nat → Nat)
    (editor : List Nat → List Nat) (key : Option (List Nat))
    (fileBytes : List Nat) : EditResult :=
  match Header.decode fileBytes with
  | .error _ => .decodeFailed
  | .panic => .panicked
  | .ok h =>
    match Journal.bytes ks tagB key h fileBytes with
    | .error e => .failed e
    | .ok content =>
      match Journal.write ks tagB rand key (editor content) with
      | .error e => .failed e
      | .ok newBytes => .written newBytes

/-- Every successful keyed `Journal::write` emits a file starting with the
fixed 32-byte encrypted header `1, 0x80, 12, 16, nonce(12), tag(16)`. -/
theorem Journal.write_some_shape (ks : List Nat → List Nat → Nat → Nat)
    (tagB : List Nat → List Nat → List Nat → Nat → Nat) (rand : Nat → Nat)
    (key content newBytes : List Nat)
    (h : Journal.write ks tagB rand (some key) content = .ok newBytes) :
    ∃ tg ct : List Nat,
      newBytes = 1 :: 128 :: 12 :: 16 :: ((freshNonce rand ++ tg) ++ ct) := by
  cases hk : get_key key with
  | error e =>
    simp only [Journal.write, encrypt, hk] at h
    cases h
  | ok k =>
    simp only [Journal.write, encrypt, hk, Except.ok.injEq] at h
    refine ⟨gcmTag tagB k (freshNonce rand)
        (sealBytes ks k (freshNonce rand) content),
      sealBytes ks k (freshNonce rand) content, ?_⟩
    have hfn : (freshNonce rand).length = 12 := by simp [freshNonce]
    have htg : (gcmTag tagB k (freshNonce rand)
        (sealBytes ks k (freshNonce rand) content)).length = 16 := by
      simp [gcmTag]
    rw [Header.new_encrypted, Header.encode_encrypted _ _ _
      (by rw [hfn]; omega) (by rw [htg]; omega), hfn, htg] at h
    rw [← h]
    simp

/-- C10: for every valid key, `encrypt` returns a 12-byte nonce and a
16-byte tag (the AES-256-GCM lengths), so the header written by
`Journal::write` stores the length bytes `12` and `16` untruncated and the
encoded header of an encrypted file is exactly 32 bytes long. -/
theorem write_encrypted_header_bytes (ks : List Nat → List Nat → Nat → Nat)
    (tagB : List Nat → List Nat → List Nat → Nat → Nat) (rand : Nat → Nat)
    (key content : List Nat) (h8 : 8 ≤ key.length) (h32 : key.length ≤ 32) :
    ∃ r : EncryptionResult,
      encrypt ks tagB rand content key = .ok r ∧
      r.nonce.length = 12 ∧ r.tag.length = 16 ∧
      Header.encode (Header.new_encrypted r.nonce r.tag) =
        1 :: 128 :: 12 :: 16 :: (r.nonce ++ r.tag) ∧
      (Header.encode (Header.new_encrypted r.nonce r.tag)).length = 32 ∧
      Journal.write ks tagB rand (some key) content =
        .ok (Header.encode (Header.new_encrypted r.nonce r.tag)
          ++ r.ciphertext) := by
  have hk := get_key_valid key h8 h32
  set k := key ++ List.replicate (32 - key.length) 0 with hkdef
  have hfn : (freshNonce rand).length = 12 := by simp [freshNonce]
  have htg : (gcmTag tagB k (freshNonce rand)
      (sealBytes ks k (freshNonce rand) content)).length = 16 := by
    simp [gcmTag]
  have henc : Header.encode (Header.new_encrypted (freshNonce rand)
      (gcmTag tagB k (freshNonce rand)
        (sealBytes ks k (freshNonce rand) content))) =
      1 :: 128 :: 12 :: 16 :: (freshNonce rand ++ gcmTag tagB k
        (freshNonce rand) (sealBytes ks k (freshNonce rand) content)) := by
    rw [Header.new_encrypted, Header.encode_encrypted _ _ _
      (by rw [hfn]; omega) (by rw [htg]; omega), hfn, htg]
  refine ⟨⟨sealBytes ks k (freshNonce rand) content, freshNonce rand,
    gcmTag tagB k (freshNonce rand)
      (sealBytes ks k (freshNonce rand) content)⟩,
    ?_, hfn, htg, henc, ?_, ?_⟩
  · simp only [encrypt, hk]
  · rw [henc]
    simp only [List.length_cons, List.length_append, hfn, htg]
  · simp only [Journal.write, encrypt, hk]

/-- Witness for C10 at the 9-byte key `bbbbbbbbb` and plaintext `[7]`. -/
theorem write_encrypted_header_bytes_witness :
    ∃ r : EncryptionResult,
      encrypt (fun _ _ i => i + 2) (fun _ _ _ i => i + 3) (fun i => i)
        [7] (List.replicate 9 98) = .ok r ∧
      r.nonce.length = 12 ∧ r.tag.length = 16 ∧
      Header.encode (Header.new_encrypted r.nonce r.tag) =
        1 :: 128 :: 12 :: 16 :: (r.nonce ++ r.tag) ∧
      (Header.encode (Header.new_encrypted r.nonce r.tag)).length = 32 ∧
      Journal.write (fun _ _ i => i + 2) (fun _ _ _ i => i + 3) (fun i => i)
        (some (List.replicate 9 98)) [7] =
        .ok (Header.encode (Header.new_encrypted r.nonce r.tag)
          ++ r.ciphertext) :=
  write_encrypted_header_bytes (fun _ _ i => i + 2) (fun _ _ _ i => i + 3)
    (fun i => i) (List.replicate 9 98) [7] (by decide) (by decide)

/-- Every successful `Journal::edit` with a key yields new file bytes of
the keyed `Journal::write` shape: the 32-byte encrypted header starting
with the freshly generated nonce, then the new ciphertext. -/
theorem Journal.edit_some_shape (ks : List Nat → List Nat → Nat → Nat)
    (tagB : List Nat → List Nat → List Nat → Nat → Nat) (rand : Nat → Nat)
    (editor : List Nat → List Nat) (key fileBytes newBytes : List Nat)
    (h : Journal.edit ks tagB rand editor (some key) fileBytes
      = .written newBytes) :
    ∃ tg ct : List Nat,
      newBytes = 1 :: 128 :: 12 :: 16 :: ((freshNonce rand ++ tg) ++ ct) := by
  rw [Journal.edit] at h
  cases hd : Header.decode fileBytes with
  | error e => rw [hd] at h; cases h
  | panic => rw [hd] at h; cases h
  | ok hdr =>
    simp only [hd] at h
    cases hb : Journal.bytes ks tagB (some key) hdr fileBytes with
    | error e =>
      simp only [hb] at h
      cases h
    | ok content =>
      simp only [hb] at h
      cases hw : Journal.write ks tagB rand (some key) (editor content) with
      | error e =>
        simp only [hw] at h
        cases h
      | ok nb =>
        simp only [hw, EditResult.written.injEq] at h
        subst h
        exact Journal.write_some_shape ks tagB rand key (editor content)
          nb hw

/-- C4 counterexample: for a journal opened without a key whose file is
`[0x01, 0x00, 104]`, an edit in which the editor returns the content
unchanged succeeds and rewrites the file with exactly the previous
on-disk bytes — refuting the claim that every successful edit (with or
without a key) produces different bytes. -/
theorem edit_unchanged_counterexample :
    ¬ ∀ out : List Nat,
        Journal.edit (fun _ _ i => i + 1) (fun _ _ _ i => i) (fun i => i)
          (fun b => b) none [1, 0, 104] = .written out →
          out ≠ [1, 0, 104] := by
  intro hclaim
  exact hclaim [1, 0, 104] (by decide) rfl

/-- C4 (amended): for a journal opened with a key from an encrypted file
(32-byte header with a 12-byte stored nonce), every successful edit
rewrites the file with bytes that differ from the previous on-disk bytes
whenever the freshly generated nonce differs from the stored one; a
journal without a key may rewrite identical bytes. -/
theorem edit_keyed_rewrites_differently
    (ks : List Nat → List Nat → Nat → Nat)
    (tagB : List Nat → List Nat → List Nat → Nat → Nat) (rand : Nat → Nat)
    (editor : List Nat → List Nat) (key nonce0 tag0 ct0 newBytes : List Nat)
    (hn0 : nonce0.length = 12) (hfresh : freshNonce rand ≠ nonce0)
    (hedit : Journal.edit ks tagB rand editor (some key)
        (1 :: 128 :: 12 :: 16 :: (nonce0 ++ (tag0 ++ ct0)))
      = .written newBytes) :
    newBytes ≠ 1 :: 128 :: 12 :: 16 :: (nonce0 ++ (tag0 ++ ct0)) := by
  obtain ⟨tg, ct, hshape⟩ := Journal.edit_some_shape ks tagB rand editor
    key _ newBytes hedit
  intro heq
  rw [hshape] at heq
  simp only [List.cons.injEq, true_and] at heq
  have h2 := congrArg (List.take 12) heq
  rw [List.append_assoc] at h2
  have hfl : (freshNonce rand).length = 12 := by simp [freshNonce]
  rw [List.take_left' hfl, List.take_left' hn0] at h2
  exact hfresh h2

/-- Witness for the amended C4: a concrete encrypted file whose stored
nonce is `[1..12]` while the fresh nonce is `[0..11]`; the edit succeeds
and the rewritten bytes differ. -/
theorem edit_keyed_rewrites_differently_witness :
    ([1, 128, 12, 16, 0, 1, 2, 3, 4, 5, 6, 7, 8, 9, 10, 11,
        0, 1, 2, 3, 4, 5, 6, 7, 8, 9, 10, 11, 12, 13, 14, 15, 5] : List Nat)
      ≠ 1 :: 128 :: 12 :: 16 :: ([1, 2, 3, 4, 5, 6, 7, 8, 9, 10, 11, 12] ++
        ([0, 1, 2, 3, 4, 5, 6, 7, 8, 9, 10, 11, 12, 13, 14, 15] ++ [5])) :=
  edit_keyed_rewrites_differently (fun _ _ i => i + 1) (fun _ _ _ i => i)
    (fun i => i) (fun b => b) (List.replicate 8 97)
    [1, 2, 3, 4, 5, 6, 7, 8, 9, 10, 11, 12]
    [0, 1, 2, 3, 4, 5, 6, 7, 8, 9, 10, 11, 12, 13, 14, 15] [5]
    [1, 128, 12, 16, 0, 1, 2, 3, 4, 5, 6, 7, 8, 9, 10, 11,
      0, 1, 2, 3, 4, 5, 6, 7, 8, 9, 10, 11, 12, 13, 14, 15, 5]
    (by decide) (by decide) (by decide)

/-! ## Editor temp-file hand-off (`src/fs/editor.rs`) -/

/-- The fallible steps of `Editor::edit_temp`, in program order; `true`
means that step's I/O operation fails (each `?` in the source). -/
structure EditTempFailures where
  /-- Model of `OpenOptions::create_new(true).write(true).open(&path)` -/
  createFails : Bool
  /-- Model of `file.write_all(content)` (the temp file already exists here) -/
  writeFails : Bool
  /-- Model of `Command::status()` inside `Editor::edit` returns an error -/
  editorFails : Bool
  /-- Model of `OpenOptions::read(true).open(&path)` for the re-read -/
  openReadFails : Bool
  /-- Model of `file.read_to_end(&mut buf)` -/
  readFails : Bool
  /-- Model of `std::fs::remove_file(&path)` -/
  removeFails : Bool
deriving DecidableEq, Repr

/-- Model of `Editor::edit_temp` in `src/fs/editor.rs` as its sequence of fallible
steps: the result of the call, paired with whether the temporary file
still exists when the function returns. The temporary file is created by
the first step; `remove_file` runs only after create, write, edit, reopen
and read have all succeeded, and every `?` before it returns early with
the file still on disk. -/
def editTemp (f : EditTempFailures) (editorOutput : List Nat) :
    Except String (List Nat) × Bool :=
  if f.createFails then (.error "create", false)
  else if f.writeFails then (.error "write", true)
  else if f.editorFails then (.error "error editing file", true)
  else if f.openReadFails then (.error "open", true)
  else if f.readFails then (.error "read", true)
  else if f.removeFails then (.error "remove", true)
  else (.ok editorOutput, false)

/-- C3: when invoking the editor fails (or the re-read fails), `edit_temp`
returns the error with the temporary file still present — it is removed
only on the all-success path, refuting "removed on every exit path". -/
theorem edit_temp_leaks_on_editor_failure :
    (editTemp ⟨false, false, true, false, false, false⟩ [104])
      = (.error "error editing file", true) ∧
    (editTemp ⟨false, false, false, false, true, false⟩ [104]).2 = true ∧
    (editTemp ⟨false, false, false, false, false, false⟩ [104])
      = (.ok [104], false) :=
  ⟨rfl, rfl, rfl⟩

/-! ## Workspaces and export (`src/export/aws.rs`, `src/export/zip.rs`) -/

/-- A journal file as the export paths see it: its filename and its raw
on-disk bytes (`FileEntry::filename` / `FileEntry::read_bytes`). -/
structure SFile where
  name : String
  bytes : List Nat
deriving DecidableEq, Repr

/-- A `Workspace` (`src/types.rs`): a name and its files. -/
structure SWorkspace where
  name : String
  files : List SFile
deriving DecidableEq, Repr

/-- The key `format!("{}/{}", workspace_name, file_entry.filename())`. -/
def fileKey (wsName : String) (f : SFile) : String :=
  wsName ++ "/" ++ f.name

/-- The `(workspace_name, file)` pairs visited by the nested
`for (workspace_name, workspace) in ws { for file_entry in workspace.files }`
loops, in iteration order. -/
def exportPairs (ws : List SWorkspace) : List (String × SFile) :=
  ws.flatMap fun w => w.files.map fun f => (w.name, f)

/-- One iteration of the file loop in `export` (`src/export/zip.rs`):
running accumulator `(exported, skipped)`; `none` models a propagated
panic from `Header::decode`. `Journal::open` failure (decode error) and
`journal.bytes()` failure both push onto the local `skipped` vector and
continue. -/
def zipStep (ks : List Nat → List Nat → Nat → Nat)
    (tagB : List Nat → List Nat → List Nat → Nat → Nat)
    (key : Option (List Nat)) (acc : Option (List String × List String))
    (p : String × SFile) : Option (List String × List String) :=
  match acc with
  | none => none
  | some (exported, skipped) =>
    let filename := fileKey p.1 p.2
    match Header.decode p.2.bytes with
    | .panic => none
    | .error _ => some (exported, skipped ++ [filename])
    | .ok h =>
      match Journal.bytes ks tagB key h p.2.bytes with
      | .ok _ => some (exported ++ [filename], skipped)
      | .error _ => some (exported, skipped ++ [filename])

/-- Result of `export` in `src/export/zip.rs`: the locally collected
`exported` and `skipped` vectors, and the `Output::ExportResult` the
function actually returns — which the source builds as
`ExportResult { exported, skipped: vec![] }`, discarding the collected
`skipped` vector. -/
structure ZipOutcome where
  exported : List String
  skippedCollected : List String
  output : List String × List String
deriving DecidableEq, Repr

/-- Model of `export` in `src/export/zip.rs` over the listed workspaces (`none`
models a decode panic aborting the process). -/
def zipExport (ks : List Nat → List Nat → Nat → Nat)
    (tagB : List Nat → List Nat → List Nat → Nat → Nat)
    (key : Option (List Nat)) (ws : List SWorkspace) : Option ZipOutcome :=
  match (exportPairs ws).foldl (zipStep ks tagB key) (some ([], [])) with
  | none => none
  | some (exported, skipped) => some ⟨exported, skipped, (exported, [])⟩

/-- C7: exporting a workspace holding one encrypted file with no key
available, the file fails to decrypt and is recorded on the collected
`skipped` vector while the loop continues — but the returned output is
`(exported, skipped) = ([], [])`: the output's `skipped` list is empty,
not `["ws/a"]` as the claim requires. -/
theorem zip_export_drops_skipped :
    zipExport (fun _ _ i => i + 1) (fun _ _ _ i => i) none
      [⟨"ws", [⟨"a", [1, 128, 1, 1, 9, 8, 5]⟩]⟩]
      = some ⟨[], ["ws/a"], ([], [])⟩ := by
  decide

/-- The manifest's `files` map (`Manifest` in `src/export/aws.rs`),
modelled as an association list with replace-on-insert — the behaviour of
`HashMap<String, String>::insert` and `get`. -/
abbrev Manifest := List (String × String)

/-- Model of `Manifest::lookup` (via `HashMap::get`). -/
def manifestLookup : Manifest → String → Option String
  | [], _ => none
  | (k, v) :: rest, key => if k = key then some v else manifestLookup rest key

/-- Model of `HashMap::insert`: replace the existing entry or append a new one. -/
def manifestInsert : Manifest → String → String → Manifest
  | [], key, v => [(key, v)]
  | (k, w) :: rest, key, v =>
    if k = key then (key, v) :: rest else (k, w) :: manifestInsert rest key v

theorem manifestLookup_insert_self (m : Manifest) (k v : String) :
    manifestLookup (manifestInsert m k v) k = some v := by
  induction m with
  | nil => simp [manifestInsert, manifestLookup]
  | cons p rest ih =>
    obtain ⟨k', v'⟩ := p
    by_cases hk : k' = k
    · simp [manifestInsert, manifestLookup, hk]
    · simp [manifestInsert, manifestLookup, hk, ih]

theorem manifestLookup_insert_ne (m : Manifest) (k v key : String)
    (h : k ≠ key) :
    manifestLookup (manifestInsert m k v) key = manifestLookup m key := by
  induction m with
  | nil => simp [manifestInsert, manifestLookup, h]
  | cons p rest ih =>
    obtain ⟨k', v'⟩ := p
    by_cases hk : k' = k
    · subst hk
      simp [manifestInsert, manifestLookup, h]
    · simp [manifestInsert, manifestLookup, hk, ih]

/-- The `if let Some(digest) = manifest.lookup(&key) { digest == current }`
test in `export_files`. -/
def manifestHit (m : Manifest) (key current : String) : Bool :=
  match manifestLookup m key with
  | some d => d == current
  | none => false

theorem manifestHit_iff (m : Manifest) (key current : String) :
    manifestHit m key current = true ↔
      manifestLookup m key = some current := by
  unfold manifestHit
  cases h : manifestLookup m key <;> simp

/-- Running state of `AwsS3::export_files`: the `exported` and `skipped`
vectors, the keys for which `put_object` was invoked, and the in-memory
manifest. -/
structure ExportState where
  exported : List String
  skipped : List String
  uploads : List String
  manifest : Manifest
deriving DecidableEq, Repr

/-- Loop body of `AwsS3::export_files` for one `(workspace, file)` pair:
a manifest hit pushes the key onto `skipped` and continues; otherwise the
in-memory manifest entry is set to the current digest and the key is
pushed onto `exported`, with the S3 upload performed only when not in
dry-run mode. -/
def exportStep (digest : List Nat → String) (dryrun : Bool)
    (st : ExportState) (p : String × SFile) : ExportState :=
  let key := fileKey p.1 p.2
  let current := digest p.2.bytes
  if manifestHit st.manifest key current then
    { st with skipped := st.skipped ++ [key] }
  else
    let st' := { st with manifest := manifestInsert st.manifest key current }
    if dryrun then { st' with exported := st'.exported ++ [key] }
    else { st' with exported := st'.exported ++ [key],
                    uploads := st'.uploads ++ [key] }

/-- Model of `AwsS3::export_files` over the listed workspaces, starting from the
fetched manifest. -/
def export_files (digest : List Nat → String) (dryrun : Bool)
    (ws : List SWorkspace) (m : Manifest) : ExportState :=
  (exportPairs ws).foldl (exportStep digest dryrun) ⟨[], [], [], m⟩

/-- Model of `AwsS3::upload_manifest`: serialize old and new manifest and digest
both (`fs::digest` — the same digest used for files); equal digests skip
persistence entirely; under `dryrun` nothing is uploaded either. Returns
whether the manifest upload was performed. -/
def upload_manifest (digest : List Nat → String)
    (serialize : Manifest → List Nat) (dryrun : Bool)
    (old newM : Manifest) : Bool :=
  if digest (serialize old) = digest (serialize newM) then false
  else if dryrun then false else true

/-- Result of one `AwsS3::export` run (nonempty workspace set, manifest
already fetched). -/
structure RunResult where
  exported : List String
  skipped : List String
  uploads : List String
  manifest : Manifest
  manifestUploaded : Bool
deriving DecidableEq, Repr

/-- Model of `AwsS3::export`: diff/upload the files against the fetched manifest,
then conditionally upload the new manifest. -/
def exportRun (digest : List Nat → String) (serialize : Manifest → List Nat)
    (dryrun : Bool) (ws : List SWorkspace) (fetched : Manifest) : RunResult :=
  let st := export_files digest dryrun ws fetched
  ⟨st.exported, st.skipped, st.uploads, st.manifest,
    upload_manifest digest serialize dryrun fetched st.manifest⟩

theorem exportStep_exported_mem (digest : List Nat → String) (dryrun : Bool)
    (st : ExportState) (p : String × SFile) (x : String)
    (hx : x ∈ st.exported) : x ∈ (exportStep digest dryrun st p).exported := by
  simp only [exportStep]
  split_ifs <;> simp [hx]

theorem exportStep_skipped_mem (digest : List Nat → String) (dryrun : Bool)
    (st : ExportState) (p : String × SFile) (x : String)
    (hx : x ∈ st.skipped) : x ∈ (exportStep digest dryrun st p).skipped := by
  simp only [exportStep]
  split_ifs <;> simp [hx]

theorem exportStep_lookup_ne (digest : List Nat → String) (dryrun : Bool)
    (st : ExportState) (p : String × SFile) (key : String)
    (hne : fileKey p.1 p.2 ≠ key) :
    manifestLookup (exportStep digest dryrun st p).manifest key
      = manifestLookup st.manifest key := by
  simp only [exportStep]
  split_ifs <;> simp [manifestLookup_insert_ne _ _ _ _ hne]

theorem foldl_exported_mem (digest : List Nat → String) (dryrun : Bool)
    (pairs : List (String × SFile)) :
    ∀ st x, x ∈ st.exported →
      x ∈ (pairs.foldl (exportStep digest dryrun) st).exported := by
  induction pairs with
  | nil => exact fun st x hx => hx
  | cons p rest ih =>
    intro st x hx
    exact ih _ x (exportStep_exported_mem digest dryrun st p x hx)

theorem foldl_skipped_mem (digest : List Nat → String) (dryrun : Bool)
    (pairs : List (String × SFile)) :
    ∀ st x, x ∈ st.skipped →
      x ∈ (pairs.foldl (exportStep digest dryrun) st).skipped := by
  induction pairs with
  | nil => exact fun st x hx => hx
  | cons p rest ih =>
    intro st x hx
    exact ih _ x (exportStep_skipped_mem digest dryrun st p x hx)

theorem foldl_lookup_frame (digest : List Nat → String) (dryrun : Bool)
    (pairs : List (String × SFile)) (key : String) :
    ∀ st, key ∉ pairs.map (fun p => fileKey p.1 p.2) →
      manifestLookup (pairs.foldl (exportStep digest dryrun) st).manifest key
        = manifestLookup st.manifest key := by
  induction pairs with
  | nil => exact fun st _ => rfl
  | cons p rest ih =>
    intro st hk
    simp only [List.map_cons, List.mem_cons, not_or] at hk
    rw [List.foldl_cons, ih _ hk.2,
      exportStep_lookup_ne digest dryrun st p key (fun h => hk.1 h.symm)]

/-- Per-key specification of the `export_files` fold: with pairwise
distinct keys, a file whose fetched-manifest digest matches is reported in
`skipped` with its manifest entry untouched; any other file is reported in
`exported` with its manifest entry set to the current digest. -/
theorem export_go_spec (digest : List Nat → String) (dryrun : Bool)
    (pairs : List (String × SFile)) :
    ∀ st : ExportState, ∀ w f, (w, f) ∈ pairs →
      (pairs.map fun p => fileKey p.1 p.2).Nodup →
      (manifestLookup st.manifest (fileKey w f) = some (digest f.bytes) →
        fileKey w f ∈ (pairs.foldl (exportStep digest dryrun) st).skipped ∧
        manifestLookup (pairs.foldl (exportStep digest dryrun) st).manifest
          (fileKey w f) = manifestLookup st.manifest (fileKey w f)) ∧
      (¬ manifestLookup st.manifest (fileKey w f) = some (digest f.bytes) →
        fileKey w f ∈ (pairs.foldl (exportStep digest dryrun) st).exported ∧
        manifestLookup (pairs.foldl (exportStep digest dryrun) st).manifest
          (fileKey w f) = some (digest f.bytes)) := by
  induction pairs with
  | nil =>
    intro st w f hmem
    simp at hmem
  | cons p rest ih =>
    intro st w f hmem hnodup
    simp only [List.map_cons, List.nodup_cons] at hnodup
    obtain ⟨hnotin, hnd⟩ := hnodup
    rcases List.mem_cons.mp hmem with heq | hmem'
    · subst heq
      constructor
      · intro hlook
        have hstep : exportStep digest dryrun st (w, f)
            = { st with skipped := st.skipped ++ [fileKey w f] } := by
          simp only [exportStep]
          rw [if_pos ((manifestHit_iff _ _ _).mpr hlook)]
        rw [List.foldl_cons, hstep]
        refine ⟨foldl_skipped_mem digest dryrun rest _ _ (by simp), ?_⟩
        rw [foldl_lookup_frame digest dryrun rest _ _ hnotin]
      · intro hlook
        have hhit : manifestHit st.manifest (fileKey w f) (digest f.bytes)
            = false := by
          cases h : manifestHit st.manifest (fileKey w f) (digest f.bytes)
          · rfl
          · exact absurd ((manifestHit_iff _ _ _).mp h) hlook
        have hcond : ¬ (manifestHit st.manifest (fileKey w f)
            (digest f.bytes) = true) := by
          simp [hhit]
        have hman : (exportStep digest dryrun st (w, f)).manifest
            = manifestInsert st.manifest (fileKey w f) (digest f.bytes) := by
          simp only [exportStep]
          rw [if_neg hcond]
          split_ifs <;> rfl
        have hexp : fileKey w f ∈ (exportStep digest dryrun st (w, f)).exported := by
          simp only [exportStep]
          rw [if_neg hcond]
          split_ifs <;> simp
        rw [List.foldl_cons]
        refine ⟨foldl_exported_mem digest dryrun rest _ _ hexp, ?_⟩
        rw [foldl_lookup_frame digest dryrun rest _ _ hnotin, hman,
          manifestLookup_insert_self]
    · have hkne : fileKey p.1 p.2 ≠ fileKey w f := by
        intro h
        apply hnotin
        rw [h]
        exact List.mem_map_of_mem _ hmem'
      rw [List.foldl_cons]
      have hres := ih (exportStep digest dryrun st p) w f hmem' hnd
      rw [exportStep_lookup_ne digest dryrun st p _ hkne] at hres
      exact hres

/-- When every pair's key already carries its current digest in the
manifest, the fold only grows `skipped`: manifest, `exported` and the
performed uploads are untouched. -/
theorem export_files_all_hit (digest : List Nat → String) (dryrun : Bool)
    (pairs : List (String × SFile)) :
    ∀ st, (∀ p ∈ pairs,
        manifestHit st.manifest (fileKey p.1 p.2) (digest p.2.bytes) = true) →
      (pairs.foldl (exportStep digest dryrun) st).manifest = st.manifest ∧
      (pairs.foldl (exportStep digest dryrun) st).exported = st.exported ∧
      (pairs.foldl (exportStep digest dryrun) st).uploads = st.uploads := by
  induction pairs with
  | nil => exact fun st _ => ⟨rfl, rfl, rfl⟩
  | cons p rest ih =>
    intro st hall
    have hhit := hall p (List.mem_cons_self p rest)
    have hstep : exportStep digest dryrun st p
        = { st with skipped := st.skipped ++ [fileKey p.1 p.2] } := by
      simp only [exportStep]
      rw [if_pos hhit]
    rw [List.foldl_cons, hstep]
    exact ih _ fun q hq => hall q (List.mem_cons_of_mem p hq)

/-- After `export_files`, the resulting manifest maps every visited key to
the current digest of its file. -/
theorem export_files_final_lookup (digest : List Nat → String)
    (dryrun : Bool) (ws : List SWorkspace) (m : Manifest)
    (hnodup : ((exportPairs ws).map fun p => fileKey p.1 p.2).Nodup) :
    ∀ p ∈ exportPairs ws,
      manifestLookup (export_files digest dryrun ws m).manifest
        (fileKey p.1 p.2) = some (digest p.2.bytes) := by
  intro p hp
  obtain ⟨w, f⟩ := p
  have h := export_go_spec digest dryrun (exportPairs ws) ⟨[], [], [], m⟩
    w f hp hnodup
  by_cases hl : manifestLookup m (fileKey w f) = some (digest f.bytes)
  · exact ((h.1 hl).2).trans hl
  · exact (h.2 hl).2

/-- C5: for each `(workspace, file)` pair considered by `export_files`
(with the visited keys pairwise distinct), a key whose fetched-manifest
digest equals the file's current digest is reported in `skipped` with its
manifest entry unchanged; otherwise the key is reported in `exported` and
its in-memory manifest entry is set to the new digest. -/
theorem export_manifest_diff (digest : List Nat → String) (dryrun : Bool)
    (ws : List SWorkspace) (m0 : Manifest) (w : String) (f : SFile)
    (hnodup : ((exportPairs ws).map fun p => fileKey p.1 p.2).Nodup)
    (hmem : (w, f) ∈ exportPairs ws) :
    (manifestLookup m0 (fileKey w f) = some (digest f.bytes) →
      fileKey w f ∈ (export_files digest dryrun ws m0).skipped ∧
      manifestLookup (export_files digest dryrun ws m0).manifest (fileKey w f)
        = manifestLookup m0 (fileKey w f)) ∧
    (¬ manifestLookup m0 (fileKey w f) = some (digest f.bytes) →
      fileKey w f ∈ (export_files digest dryrun ws m0).exported ∧
      manifestLookup (export_files digest dryrun ws m0).manifest (fileKey w f)
        = some (digest f.bytes)) :=
  export_go_spec digest dryrun (exportPairs ws) ⟨[], [], [], m0⟩ w f
    hmem hnodup

/-- Witness for C5: one workspace `ws` with one file `a` whose digest
matches the fetched manifest entry for `ws/a`: the file lands in `skipped`
and the manifest entry is unchanged. -/
theorem export_manifest_diff_witness :
    ("ws/a" : String) ∈ (export_files (fun _ => "d1") false
        [⟨"ws", [⟨"a", [1]⟩]⟩] [("ws/a", "d1")]).skipped ∧
    manifestLookup (export_files (fun _ => "d1") false
        [⟨"ws", [⟨"a", [1]⟩]⟩] [("ws/a", "d1")]).manifest "ws/a"
      = manifestLookup [("ws/a", "d1")] "ws/a" :=
  (export_manifest_diff (fun _ => "d1") false [⟨"ws", [⟨"a", [1]⟩]⟩]
    [("ws/a", "d1")] "ws" ⟨"a", [1]⟩ (by decide) (by decide)).1 (by decide)

/-- C6: serializing and digesting the old and new manifests gates the
manifest upload: equal digests skip the upload even in non-dry-run mode;
and for two consecutive non-dry-run export runs over unchanged files
(distinct keys, no digest collision between the two serialized manifests
of the first run), the second run's serialized manifest is identical to
the first run's and the second run performs no manifest upload. -/
theorem manifest_upload_gate_idempotent (digest : List Nat → String)
    (serialize : Manifest → List Nat) (ws : List SWorkspace) (m0 : Manifest)
    (hnodup : ((exportPairs ws).map fun p => fileKey p.1 p.2).Nodup)
    (hcoll : digest (serialize m0) =
        digest (serialize (export_files digest false ws m0).manifest) →
      m0 = (export_files digest false ws m0).manifest) :
    let run1 := exportRun digest serialize false ws m0
    let remote1 := if run1.manifestUploaded then run1.manifest else m0
    let run2 := exportRun digest serialize false ws remote1
    (∀ old newM : Manifest, digest (serialize old) = digest (serialize newM) →
      upload_manifest digest serialize false old newM = false) ∧
    run2.manifestUploaded = false ∧
    serialize run2.manifest = serialize run1.manifest := by
  intro run1 remote1 run2
  have hgate : ∀ old newM : Manifest,
      digest (serialize old) = digest (serialize newM) →
      upload_manifest digest serialize false old newM = false := by
    intro old newM h
    simp [upload_manifest, h]
  have hrem : remote1 = (export_files digest false ws m0).manifest := by
    show (if upload_manifest digest serialize false m0
        (export_files digest false ws m0).manifest then
        (export_files digest false ws m0).manifest else m0) = _
    by_cases hup : upload_manifest digest serialize false m0
        (export_files digest false ws m0).manifest = true
    · rw [if_pos hup]
    · rw [if_neg hup]
      apply hcoll
      by_contra hne
      exact hup (by simp [upload_manifest, hne])
  have hall : ∀ p ∈ exportPairs ws,
      manifestHit (export_files digest false ws m0).manifest
        (fileKey p.1 p.2) (digest p.2.bytes) = true := by
    intro p hp
    exact (manifestHit_iff _ _ _).mpr
      (export_files_final_lookup digest false ws m0 hnodup p hp)
  have hfix := export_files_all_hit digest false (exportPairs ws)
    ⟨[], [], [], (export_files digest false ws m0).manifest⟩ hall
  have hm2 : (export_files digest false ws
      (export_files digest false ws m0).manifest).manifest
      = (export_files digest false ws m0).manifest := hfix.1
  refine ⟨hgate, ?_, ?_⟩
  · show upload_manifest digest serialize false remote1
      (export_files digest false ws remote1).manifest = false
    rw [hrem, hm2]
    exact hgate _ _ rfl
  · show serialize (export_files digest false ws remote1).manifest
      = serialize (export_files digest false ws m0).manifest
    rw [hrem, hm2]

/-- Witness for C6 at a concrete one-file workspace whose manifest entry
already matches, with a length-based serialization. -/
theorem manifest_upload_gate_idempotent_witness :
    let run1 := exportRun (fun _ => "d") (fun m => [m.length]) false
      [⟨"ws", [⟨"a", [1]⟩]⟩] [("ws/a", "d")]
    let remote1 := if run1.manifestUploaded then run1.manifest
      else [("ws/a", "d")]
    let run2 := exportRun (fun _ => "d") (fun m => [m.length]) false
      [⟨"ws", [⟨"a", [1]⟩]⟩] remote1
    (∀ old newM : Manifest,
      (fun _ => "d") ((fun m : Manifest => [m.length]) old) =
        (fun _ => "d") ((fun m : Manifest => [m.length]) newM) →
      upload_manifest (fun _ => "d") (fun m => [m.length]) false old newM
        = false) ∧
    run2.manifestUploaded = false ∧
    (fun m : Manifest => [m.length]) run2.manifest
      = (fun m : Manifest => [m.length]) run1.manifest :=
  manifest_upload_gate_idempotent (fun _ => "d") (fun m => [m.length])
    [⟨"ws", [⟨"a", [1]⟩]⟩] [("ws/a", "d")] (by decide) (by decide)

end JournalSpec
